import Mathlib

/-!
Verification development for the transit back-end repository.

Shallow embeddings of:
* `services/realistic_stop_times_service.py` — IQR delay filtering and
  monotonic realistic stop-time synthesis;
* `services/raptor_service.py` — transfer graph, result pruning,
  duplicate-route filtering, walk-leg merging, nearby-stop guard;
* `services/arrival_logger.py` — arrival observation, CSV log emission,
  latest-arrival cache with TTL.
-/

/- ------------------------------------------------------------------ -/
/- Realistic stop times service (realistic_stop_times_service.py)      -/
/- ------------------------------------------------------------------ -/

/-- Embedding of the second pass of `_parse_arrival_log` (lines 106-135):
per-(trip, stop) IQR outlier filtering of a delay group.  Delays are
integers (the code does `int(float(delay_str))`); `IQR_MULTIPLIER = 3.0`
is exact on integer inputs, so the bounds are modelled over `Int`.
`sorted(delays)` is modelled with `List.insertionSort (· ≤ ·)` (stable
ascending sort; on integers only the value order matters). -/
def filterDelays (delays : List Int) : List Int :=
  if delays.length < 4 then delays
  else
    let sorted_delays := List.insertionSort (· ≤ ·) delays
    let q1_idx := delays.length / 4
    let q3_idx := 3 * delays.length / 4
    let q1 := sorted_delays.getD q1_idx 0
    let q3 := sorted_delays.getD q3_idx 0
    let iqr := q3 - q1
    let lower_bound := q1 - 3 * iqr
    let upper_bound := q3 + 3 * iqr
    delays.filter (fun d => decide (lower_bound ≤ d ∧ d ≤ upper_bound))

/-- Definition written from the spec's words ("Q1 is the sample at index
⌊n/4⌋ of the sorted samples, Q3 at index ⌊3n/4⌋; lower bound = Q1 − 3·IQR,
upper = Q3 + 3·IQR; discard samples outside [lower, upper]; groups smaller
than 4 are retained unfiltered"), with the sorted order produced by a
different sorting routine, to be compared against the source embedding. -/
def iqrFilterSpec (samples : List Int) : List Int :=
  if samples.length < 4 then samples
  else
    let sorted := samples.mergeSort (fun a b => decide (a ≤ b))
    let q1 := sorted.getD (samples.length / 4) 0
    let q3 := sorted.getD (3 * samples.length / 4) 0
    let iqr := q3 - q1
    samples.filter (fun d => decide (q1 - 3 * iqr ≤ d ∧ d ≤ q3 + 3 * iqr))

/-- Embedding of the candidate realistic time for one stop
(`calculate_realistic_stop_times` lines 294-306 together with
`_adjust_gtfs_time` lines 158-186): scheduled seconds plus the
representative delay, clamped below at 0; a zero delay leaves the
scheduled time untouched.  The `%02d` formatting round-trip is lossless
(hours may exceed 24 and print with more digits), so times are modelled
directly as seconds. -/
def candidateSeconds (orig : Nat) (delay : Int) : Nat :=
  if delay = 0 then orig else ((orig : Int) + delay).toNat

/-- Embedding of the monotonicity enforcement for one stop
(`calculate_realistic_stop_times` lines 308-317): if the candidate time is
less than or equal to the previous stop's realistic time, the output is the
previous time plus 60 seconds. -/
def enforceStop (prev : Option Nat) (orig : Nat) (delay : Int) : Nat :=
  let cand := candidateSeconds orig delay
  match prev with
  | none => cand
  | some p => if cand ≤ p then p + 60 else cand

/-- Embedding of the per-trip loop of `calculate_realistic_stop_times`
(lines 284-323).  Each row is `(arrival seconds or none, representative
delay)`, already in stop-sequence order (the code sorts by
`stop_sequence` first).  Rows with an empty `arrival_time` are skipped:
they keep no time and do not update the previous-time tracker, and the
row itself is preserved in the output. -/
def processTripStops : Option Nat → List (Option Nat × Int) → List (Option Nat)
  | _, [] => []
  | prev, (none, _) :: rest => none :: processTripStops prev rest
  | prev, (some orig, d) :: rest =>
    let t := enforceStop prev orig d
    some t :: processTripStops (some t) rest

lemma processTripStops_chain_lt (rows : List (Option Nat × Int)) :
    ∀ p : Nat,
      List.Chain' (· < ·) (p :: (processTripStops (some p) rows).filterMap id) := by
  induction rows with
  | nil => intro p; simp [processTripStops]
  | cons row rest ih =>
    intro p
    rcases row with ⟨orig?, d⟩
    cases orig? with
    | none =>
      simpa [processTripStops] using ih p
    | some orig =>
      have hlt : p < enforceStop (some p) orig d := by
        unfold enforceStop
        by_cases h : candidateSeconds orig d ≤ p
        · simp [h]
        · simp only [if_neg h]
          omega
      simpa [processTripStops, List.chain'_cons] using
        ⟨hlt, ih (enforceStop (some p) orig d)⟩

lemma processTripStops_chain_lt_none (rows : List (Option Nat × Int)) :
    List.Chain' (· < ·) ((processTripStops none rows).filterMap id) := by
  induction rows with
  | nil => simp [processTripStops]
  | cons row rest ih =>
    rcases row with ⟨orig?, d⟩
    cases orig? with
    | none => simpa [processTripStops] using ih
    | some orig =>
      have h := processTripStops_chain_lt rest (enforceStop none orig d)
      simpa [processTripStops] using h

lemma processTripStops_length (prev : Option Nat)
    (rows : List (Option Nat × Int)) :
    (processTripStops prev rows).length = rows.length := by
  induction rows generalizing prev with
  | nil => simp [processTripStops]
  | cons row rest ih =>
    rcases row with ⟨orig?, d⟩
    cases orig? with
    | none => simp [processTripStops, ih]
    | some orig => simp [processTripStops, ih]

/-- Claim C1: for every trip processed by the realistic-time synthesiser,
the output arrival times in stop-sequence order are non-decreasing (in
fact strictly increasing over the rows that carry a time); whenever a
stop's candidate time is at most the previous stop's realistic time, the
output equals the previous time plus 60 seconds; and every input row has
exactly one output row.  The concrete example is the spec's worked
enforcement example: scheduled 10:00 / 10:01 / 10:02 with delays
0 / +120 / −60 gives 10:00:00 / 10:03:00 / 10:04:00. -/
theorem realistic_monotonic_progression (rows : List (Option Nat × Int)) :
    List.Chain' (· ≤ ·) ((processTripStops none rows).filterMap id) ∧
    List.Chain' (· < ·) ((processTripStops none rows).filterMap id) ∧
    (processTripStops none rows).length = rows.length ∧
    (∀ (p orig : Nat) (d : Int), candidateSeconds orig d ≤ p →
      enforceStop (some p) orig d = p + 60) ∧
    processTripStops none [(some 36000, 0), (some 36060, 120), (some 36120, -60)] =
      [some 36000, some 36180, some 36240] := by
  refine ⟨?_, processTripStops_chain_lt_none rows,
    processTripStops_length none rows, ?_, by decide⟩
  · exact (processTripStops_chain_lt_none rows).imp (fun a b h => Nat.le_of_lt h)
  · intro p orig d h
    unfold enforceStop
    simp [h]

/-- Witness for C1 at a concrete input: with previous realistic time 100 s
and candidate 40 + 10 = 50 s ≤ 100 s, the enforced output is 160 s. -/
theorem realistic_monotonic_progression_witness :
    candidateSeconds 40 10 ≤ 100 ∧ enforceStop (some 100) 40 10 = 100 + 60 :=
  ⟨by decide, (realistic_monotonic_progression []).2.2.2.1 100 40 10 (by decide)⟩

/-- Claim C2: the source's IQR filtering step agrees with the spec's
formula (Q1 at index ⌊n/4⌋ of the sorted samples, Q3 at index ⌊3n/4⌋,
multiplier 3, groups smaller than 4 retained unfiltered), stated as
equality with the independently written spec-side definition; a group of
exactly 4 samples is filtered (here one sample is discarded) while a
group of 3 is retained unfiltered. -/
theorem iqr_filter_matches_spec :
    (∀ delays : List Int, filterDelays delays = iqrFilterSpec delays) ∧
    filterDelays [-1000, 0, 0, 0] = [0, 0, 0] ∧
    filterDelays [-1000, 0, 0] = [-1000, 0, 0] := by
  refine ⟨?_, by decide, by decide⟩
  intro delays
  have hs : delays.mergeSort (fun a b => decide (a ≤ b)) =
      List.insertionSort (· ≤ ·) delays := by
    exact List.mergeSort_eq_insertionSort (· ≤ ·) delays
  unfold filterDelays iqrFilterSpec
  by_cases h : delays.length < 4
  · simp [h]
  · simp only [if_neg h, hs]

/-- Claim C9 counterexample: the IQR filter is not idempotent.  The group
[0, 0, 0, 0, 6, 100] filters to [0, 0, 0, 0, 6] (Q1 = 0, Q3 = 6,
bounds [−18, 24]); filtering that output again (Q1 = 0, Q3 = 0,
bounds [0, 0]) removes the sample 6, yielding [0, 0, 0, 0]. -/
theorem iqr_filter_not_idempotent :
    filterDelays [0, 0, 0, 0, 6, 100] = [0, 0, 0, 0, 6] ∧
    filterDelays [0, 0, 0, 0, 6] = [0, 0, 0, 0] ∧
    filterDelays (filterDelays [0, 0, 0, 0, 6, 100]) ≠
      filterDelays [0, 0, 0, 0, 6, 100] := by decide

/-- Claim C9 amended: each application of the IQR filtering step yields a
subsequence of its input, and groups smaller than 4 samples are returned
unchanged; the step is not idempotent in general — a second application
may remove further samples. -/
theorem iqr_filter_sublist (delays : List Int) :
    List.Sublist (filterDelays delays) delays ∧
    (delays.length < 4 → filterDelays delays = delays) := by
  constructor
  · unfold filterDelays
    by_cases h : delays.length < 4
    · simp [h]
    · simp only [if_neg h]
      exact List.filter_sublist _
  · intro h
    unfold filterDelays
    simp [h]

/-- Witness for the amended C9 at a concrete input: a 1-sample group is
returned unchanged. -/
theorem iqr_filter_sublist_witness : filterDelays [5] = [5] :=
  (iqr_filter_sublist [5]).2 (by decide)

/- ------------------------------------------------------------------ -/
/- RAPTOR engine (raptor_service.py)                                   -/
/- ------------------------------------------------------------------ -/

/-- Embedding of the fastest total time over the reconstructed candidate
results (`run`, line 435): Python `min` over a non-empty list, modelled as
a left fold.  A result is modelled by its `(total_time, transfer_count)`
pair. -/
def fastestTime : List (Nat × Nat) → Nat
  | [] => 0
  | r :: rs => rs.foldl (fun m x => min m x.1) r.1

/-- Embedding of the minimum transfer count over the candidate results
(`run`, line 437). -/
def minTransferCount : List (Nat × Nat) → Nat
  | [] => 0
  | r :: rs => rs.foldl (fun m x => min m x.2) r.2

/-- Embedding of the result-pruning loop of `run` (lines 434-441): a
result is kept iff its total time is at most `fastest + 60` or its
transfer count is at most the minimum transfer count; the empty candidate
list yields the empty result list. -/
def pruneResults (temp : List (Nat × Nat)) : List (Nat × Nat) :=
  match temp with
  | [] => []
  | _ :: _ =>
    temp.filter (fun r =>
      decide (r.1 ≤ fastestTime temp + 60) || decide (r.2 ≤ minTransferCount temp))

lemma foldlMin_le_init {α : Type} (f : α → Nat) :
    ∀ (l : List α) (a : Nat), l.foldl (fun m x => min m (f x)) a ≤ a := by
  intro l
  induction l with
  | nil => intro a; simp
  | cons x xs ih =>
    intro a
    exact le_trans (ih (min a (f x))) (Nat.min_le_left _ _)

lemma foldlMin_le_mem {α : Type} (f : α → Nat) :
    ∀ (l : List α) (a : Nat) (x : α), x ∈ l →
      l.foldl (fun m y => min m (f y)) a ≤ f x := by
  intro l
  induction l with
  | nil => intro a x hx; cases hx
  | cons y ys ih =>
    intro a x hx
    rcases List.mem_cons.mp hx with h | h
    · subst h
      exact le_trans (foldlMin_le_init f ys (min a (f x))) (Nat.min_le_right _ _)
    · exact ih (min a (f y)) x h

lemma minTransferCount_le {temp : List (Nat × Nat)} {r : Nat × Nat}
    (hr : r ∈ temp) : minTransferCount temp ≤ r.2 := by
  match temp, hr with
  | t :: ts, hr =>
    rcases List.mem_cons.mp hr with h | h
    · subst h
      exact foldlMin_le_init (fun x => x.2) ts r.2
    · exact foldlMin_le_mem (fun x => x.2) ts t.2 r h

/-- Claim C3: a reconstructed candidate survives the pruning step iff its
total time is at most the fastest candidate's total time plus 60 seconds
or its transit-leg count equals the minimum transit-leg count; on the
spec's example (1200, 2), (1250, 1), (1300, 3), exactly the first two are
kept. -/
theorem prune_results_keep_iff :
    (∀ (temp : List (Nat × Nat)) (r : Nat × Nat), temp ≠ [] →
      (r ∈ pruneResults temp ↔
        r ∈ temp ∧
          (r.1 ≤ fastestTime temp + 60 ∨ r.2 = minTransferCount temp))) ∧
    pruneResults [(1200, 2), (1250, 1), (1300, 3)] = [(1200, 2), (1250, 1)] := by
  constructor
  · intro temp r htemp
    match temp, htemp with
    | t :: ts, _ =>
      rw [show pruneResults (t :: ts) =
        (t :: ts).filter (fun r =>
          decide (r.1 ≤ fastestTime (t :: ts) + 60) ||
            decide (r.2 ≤ minTransferCount (t :: ts))) from rfl]
      rw [List.mem_filter]
      simp only [Bool.or_eq_true, decide_eq_true_eq]
      constructor
      · rintro ⟨hmem, hcond⟩
        refine ⟨hmem, ?_⟩
        rcases hcond with h | h
        · exact Or.inl h
        · exact Or.inr (Nat.le_antisymm h (minTransferCount_le hmem))
      · rintro ⟨hmem, hcond⟩
        refine ⟨hmem, ?_⟩
        rcases hcond with h | h
        · exact Or.inl h
        · exact Or.inr (le_of_eq h)
  · decide

/-- Witness for C3 at the spec's concrete candidates: the pruning
characterisation applied to the candidate (1300, 3). -/
theorem prune_results_keep_iff_witness :
    (1300, 3) ∈ pruneResults [(1200, 2), (1250, 1), (1300, 3)] ↔
      (1300, 3) ∈ [(1200, 2), (1250, 1), (1300, 3)] ∧
        ((1300 ≤ fastestTime [(1200, 2), (1250, 1), (1300, 3)] + 60 ∨
          3 = minTransferCount [(1200, 2), (1250, 1), (1300, 3)])) :=
  prune_results_keep_iff.1 [(1200, 2), (1250, 1), (1300, 3)] (1300, 3) (by decide)

/-- Leg of a reconstructed itinerary, as consumed by
`_filter_duplicate_routes_different_walk` (raptor_service.py lines
104-121): a walk leg carries its duration and distance, a transit leg its
route id and boarding/alighting stop ids. -/
inductive RLeg where
  | walk (durationSeconds distanceM : Nat)
  | transit (routeId fromStopId toStopId : String)
deriving DecidableEq

def isWalkLeg : RLeg → Bool
  | RLeg.walk _ _ => true
  | _ => false

/-- Embedding of `_get_transit_signature` (lines 99-102): the ordered
tuple of (route-id, from-stop, to-stop) over the transit legs. -/
def transitSignature (legs : List RLeg) : List (String × String × String) :=
  legs.filterMap (fun l =>
    match l with
    | RLeg.walk _ _ => none
    | RLeg.transit r f t => some (r, f, t))

/-- Embedding of the key used by the `min` call in
`_filter_duplicate_routes_different_walk` (line 118):
`next((leg["duration_seconds"] for leg in r["legs"] if leg["type"] == "walk"), 0)`,
i.e. the duration of the FIRST walk leg, defaulting to 0. -/
def firstWalkDuration (legs : List RLeg) : Nat :=
  match legs.find? isWalkLeg with
  | some (RLeg.walk d _) => d
  | _ => 0

/-- Total walking time of an itinerary, summed over all walk legs — the
quantity named by the spec ("minimum total walking time"). -/
def totalWalkDuration (legs : List RLeg) : Nat :=
  (legs.map (fun l =>
    match l with
    | RLeg.walk d _ => d
    | _ => 0)).sum

/-- The distinct transit signatures of the results in first-occurrence
order — the iteration order of the `transit_groups` dict built on lines
106-109 (Python dicts preserve insertion order). -/
def signaturesInOrder (results : List (List RLeg)) :
    List (List (String × String × String)) :=
  results.foldl
    (fun acc r =>
      if transitSignature r ∈ acc then acc else acc ++ [transitSignature r]) []

/-- Python's `min(group, key=f)` on the non-empty list `x :: ys`: a left
fold that replaces the current best only on a strictly smaller key, so
the earliest minimal element wins. -/
def pyMinBy {α : Type} (f : α → Nat) (x : α) (ys : List α) : α :=
  ys.foldl (fun best y => if f y < f best then y else best) x

/-- The element kept from one signature group (lines 113-120): a
singleton group keeps its only element (which coincides with the minimum
of the singleton), a larger group keeps the element minimising
`firstWalkDuration`. -/
def chooseFromGroup (group : List (List RLeg)) : Option (List RLeg) :=
  match group with
  | [] => none
  | g :: gs => some (pyMinBy firstWalkDuration g gs)

/-- Embedding of `_filter_duplicate_routes_different_walk` (lines
104-121): group results by transit signature, and keep from each group
the element minimising `firstWalkDuration`. -/
def filterDuplicateRoutesDifferentWalk (results : List (List RLeg)) :
    List (List RLeg) :=
  (signaturesInOrder results).filterMap (fun s =>
    chooseFromGroup (results.filter (fun r => decide (transitSignature r = s))))

lemma pyMinBy_mem {α : Type} (f : α → Nat) :
    ∀ (ys : List α) (x : α), pyMinBy f x ys = x ∨ pyMinBy f x ys ∈ ys := by
  intro ys
  induction ys with
  | nil => intro x; exact Or.inl rfl
  | cons y ys ih =>
    intro x
    have hstep : pyMinBy f x (y :: ys) =
        pyMinBy f (if f y < f x then y else x) ys := rfl
    rw [hstep]
    by_cases hy : f y < f x
    · rw [if_pos hy]
      rcases ih y with h | h
      · rw [h]; exact Or.inr (List.mem_cons_self y ys)
      · exact Or.inr (List.mem_cons_of_mem y h)
    · rw [if_neg hy]
      rcases ih x with h | h
      · exact Or.inl h
      · exact Or.inr (List.mem_cons_of_mem y h)

lemma pyMinBy_le {α : Type} (f : α → Nat) :
    ∀ (ys : List α) (x z : α), (z = x ∨ z ∈ ys) →
      f (pyMinBy f x ys) ≤ f z := by
  intro ys
  induction ys with
  | nil =>
    intro x z hz
    rcases hz with h | h
    · subst h; exact le_refl _
    · cases h
  | cons y ys ih =>
    intro x z hz
    have hstart : f (pyMinBy f (if f y < f x then y else x) ys) ≤
        f (if f y < f x then y else x) :=
      ih (if f y < f x then y else x) (if f y < f x then y else x) (Or.inl rfl)
    have hx : f (if f y < f x then y else x) ≤ f x := by
      by_cases hy : f y < f x
      · rw [if_pos hy]; exact le_of_lt hy
      · rw [if_neg hy]
    have hy2 : f (if f y < f x then y else x) ≤ f y := by
      by_cases hy : f y < f x
      · rw [if_pos hy]
      · rw [if_neg hy]; exact le_of_not_lt hy
    rcases hz with h | h
    · subst h
      exact le_trans hstart hx
    · rcases List.mem_cons.mp h with h2 | h2
      · subst h2
        exact le_trans hstart hy2
      · exact ih (if f y < f x then y else x) z (Or.inr h2)

lemma signaturesInOrder_mem (results : List (List RLeg)) :
    ∀ s ∈ signaturesInOrder results,
      ∃ r, r ∈ results ∧ transitSignature r = s := by
  have key : ∀ (rs : List (List RLeg)) (acc : List (List (String × String × String)))
      (s : List (String × String × String)),
      s ∈ rs.foldl
        (fun acc r =>
          if transitSignature r ∈ acc then acc else acc ++ [transitSignature r]) acc →
      s ∈ acc ∨ ∃ r, r ∈ rs ∧ transitSignature r = s := by
    intro rs
    induction rs with
    | nil => intro acc s hs; exact Or.inl hs
    | cons r rs ih =>
      intro acc s hs
      rcases ih _ s hs with h | h
      · have h2 : s ∈ if transitSignature r ∈ acc then acc
            else acc ++ [transitSignature r] := h
        by_cases hmem : transitSignature r ∈ acc
        · rw [if_pos hmem] at h2
          exact Or.inl h2
        · rw [if_neg hmem] at h2
          rcases List.mem_append.mp h2 with h2 | h2
          · exact Or.inl h2
          · rcases List.mem_singleton.mp h2 with rfl
            exact Or.inr ⟨r, List.mem_cons_self r rs, rfl⟩
      · rcases h with ⟨r2, hr2, hsig⟩
        exact Or.inr ⟨r2, List.mem_cons_of_mem r hr2, hsig⟩
  intro s hs
  rcases key results [] s hs with h | h
  · cases h
  · exact h

lemma map_sig_filterMap (g : List (String × String × String) → Option (List RLeg)) :
    ∀ sigs : List (List (String × String × String)),
      (∀ s ∈ sigs, ∃ m, g s = some m ∧ transitSignature m = s) →
      (sigs.filterMap g).map transitSignature = sigs := by
  intro sigs
  induction sigs with
  | nil => intro _; simp
  | cons s ss ih =>
    intro h
    rcases h s (List.mem_cons_self s ss) with ⟨m, hg, hsig⟩
    rw [List.filterMap_cons_some hg, List.map_cons, hsig,
      ih (fun s2 hs2 => h s2 (List.mem_cons_of_mem s hs2))]

/-- Itinerary P of the C4 counterexample: first walk 100 s, second walk
200 s, total walking time 300 s. -/
def tripP : List RLeg :=
  [RLeg.walk 100 100, RLeg.transit "R1" "S1" "S2", RLeg.walk 200 200]

/-- Itinerary Q of the C4 counterexample: first walk 150 s, second walk
110 s, total walking time 260 s, same transit signature as `tripP`. -/
def tripQ : List RLeg :=
  [RLeg.walk 150 150, RLeg.transit "R1" "S1" "S2", RLeg.walk 110 110]

/-- Claim C4 counterexample: two itineraries with the same transit
signature, where Q has the smaller TOTAL walking time (260 s vs 300 s)
but P has the smaller FIRST walk leg (100 s vs 150 s).  The filter keeps
P, not the minimum-total-walking-time itinerary Q, so the claim as
stated is false on the code. -/
theorem duplicate_walk_filter_counterexample :
    transitSignature tripP = transitSignature tripQ ∧
    totalWalkDuration tripQ < totalWalkDuration tripP ∧
    filterDuplicateRoutesDifferentWalk [tripP, tripQ] = [tripP] := by
  refine ⟨by decide, by decide, by decide⟩

/-- Itinerary of the spec's transfer-filter example with a single walk
leg of 300 s and transit signature ((R1,A,B),(R2,B,C)). -/
def tripW300 : List RLeg :=
  [RLeg.walk 300 300, RLeg.transit "R1" "A" "B", RLeg.transit "R2" "B" "C"]

/-- Same transit signature as `tripW300` with a single walk leg of
260 s. -/
def tripW260 : List RLeg :=
  [RLeg.walk 260 260, RLeg.transit "R1" "A" "B", RLeg.transit "R2" "B" "C"]

/-- Claim C4 amended: for every group of itineraries sharing a transit
signature the engine keeps exactly one itinerary — the one whose FIRST
walk leg's duration (0 when there is no walk leg) is minimal, earliest
occurrence winning ties; the spec's concrete example (single walk legs of
300 s vs 260 s, equal signatures) still returns only the 260 s variant,
because for single-walk itineraries the first walk duration equals the
total walking time. -/
theorem duplicate_walk_filter_min_first_walk :
    (∀ results : List (List RLeg),
      (filterDuplicateRoutesDifferentWalk results).map transitSignature =
        signaturesInOrder results) ∧
    (∀ (results : List (List RLeg)) (r : List RLeg),
      r ∈ filterDuplicateRoutesDifferentWalk results →
        r ∈ results ∧
          ∀ r2 ∈ results, transitSignature r2 = transitSignature r →
            firstWalkDuration r ≤ firstWalkDuration r2) ∧
    filterDuplicateRoutesDifferentWalk [tripW300, tripW260] = [tripW260] := by
  refine ⟨?_, ?_, by decide⟩
  · intro results
    apply map_sig_filterMap
    intro s hs
    rcases signaturesInOrder_mem results s hs with ⟨r, hr, hsig⟩
    have hrfil : r ∈ results.filter (fun r => decide (transitSignature r = s)) :=
      List.mem_filter.mpr ⟨hr, by simp [hsig]⟩
    rcases hfe : results.filter (fun r => decide (transitSignature r = s)) with
      _ | ⟨g0, gs⟩
    · rw [hfe] at hrfil; cases hrfil
    · refine ⟨pyMinBy firstWalkDuration g0 gs, by rfl, ?_⟩
      have hmem : pyMinBy firstWalkDuration g0 gs ∈ g0 :: gs := by
        rcases pyMinBy_mem firstWalkDuration gs g0 with h | h
        · rw [h]; exact List.mem_cons_self g0 gs
        · exact List.mem_cons_of_mem g0 h
      rw [← hfe] at hmem
      have := (List.mem_filter.mp hmem).2
      exact of_decide_eq_true this
  · intro results r hr
    rcases List.mem_filterMap.mp hr with ⟨s, hs, hgs⟩
    rcases hfe : results.filter (fun r => decide (transitSignature r = s)) with
      _ | ⟨g0, gs⟩
    · rw [hfe] at hgs
      cases hgs
    · rw [hfe] at hgs
      have hreq : pyMinBy firstWalkDuration g0 gs = r := Option.some.inj hgs
      have hmem : r ∈ g0 :: gs := by
        rcases pyMinBy_mem firstWalkDuration gs g0 with h | h
        · rw [hreq] at h; rw [h]; exact List.mem_cons_self g0 gs
        · rw [hreq] at h; exact List.mem_cons_of_mem g0 h
      rw [← hfe] at hmem
      have hrres := (List.mem_filter.mp hmem).1
      have hrsig : transitSignature r = s :=
        of_decide_eq_true (List.mem_filter.mp hmem).2
      refine ⟨hrres, ?_⟩
      intro r2 hr2 hsig2
      have hr2fil : r2 ∈ results.filter (fun r => decide (transitSignature r = s)) :=
        List.mem_filter.mpr ⟨hr2, by rw [hsig2, hrsig]; simp⟩
      rw [hfe] at hr2fil
      have hle := pyMinBy_le firstWalkDuration gs g0 r2
        (by rcases List.mem_cons.mp hr2fil with h | h
            · exact Or.inl h
            · exact Or.inr h)
      rw [hreq] at hle
      exact hle

/-- Witness for the amended C4: the characterisation applied to the
concrete two-itinerary input of the spec's example. -/
theorem duplicate_walk_filter_min_first_walk_witness :
    tripW260 ∈ [tripW300, tripW260] ∧
      firstWalkDuration tripW260 ≤ firstWalkDuration tripW300 :=
  ⟨by decide,
    ((duplicate_walk_filter_min_first_walk.2.1 [tripW300, tripW260] tripW260
      (by decide)).2 tripW300 (by decide) (by decide))⟩

/-- Geographic coordinate; Python floats are modelled as rationals. -/
structure Coord where
  lat : ℚ
  lon : ℚ
deriving DecidableEq

/-- Payload of a walk leg as built during reconstruction in `run`
(raptor_service.py lines 340-375 and 403-417): endpoints (the "from" and
"to" dictionaries, reduced to their coordinates), distance in metres and
duration in seconds. -/
structure WalkInfo where
  src : Coord
  dst : Coord
  distanceM : ℚ
  durationSeconds : Int
deriving DecidableEq

/-- A reconstructed leg: a walk or a transit ride. -/
inductive Leg where
  | walk (w : WalkInfo)
  | transit (routeId tripId fromStopId toStopId : String)
deriving DecidableEq

def asWalk : Leg → Option WalkInfo
  | Leg.walk w => some w
  | _ => none

def isWalkB (l : Leg) : Bool := (asWalk l).isSome

/-- Embedding of `_merge_consecutive_walk_legs` (raptor_service.py lines
123-176): each maximal run of consecutive walk legs is replaced by a
single walk leg keeping the first walk's origin and the last walk's
terminus, with distance and duration summed over the run; other legs are
copied.  (The code's single-walk branch appends the leg unchanged, which
equals the merged value of a one-element run.) -/
def mergeConsecutiveWalkLegs : List Leg → List Leg
  | [] => []
  | Leg.walk w :: rest =>
    let ws := (rest.takeWhile isWalkB).filterMap asWalk
    Leg.walk
      { src := w.src
        dst := (ws.getLastD w).dst
        distanceM := w.distanceM + (ws.map WalkInfo.distanceM).sum
        durationSeconds := w.durationSeconds + (ws.map WalkInfo.durationSeconds).sum } ::
      mergeConsecutiveWalkLegs (rest.dropWhile isWalkB)
  | Leg.transit r t f s :: rest =>
    Leg.transit r t f s :: mergeConsecutiveWalkLegs rest
termination_by l => l.length
decreasing_by
  · have h : (rest.dropWhile isWalkB).length ≤ rest.length :=
      List.Sublist.length_le (List.dropWhile_sublist isWalkB)
    simp only [List.length_cons]
    omega
  · simp only [List.length_cons]
    omega

/-- No two consecutive legs of the list are both walks. -/
def noConsecutiveWalks (legs : List Leg) : Prop :=
  List.Chain' (fun a b => isWalkB a = false ∨ isWalkB b = false) legs

/-- Total distance over the walk legs of an itinerary. -/
def totalWalkDistance (legs : List Leg) : ℚ :=
  ((legs.filterMap asWalk).map WalkInfo.distanceM).sum

/-- Total duration over the walk legs of an itinerary. -/
def totalWalkTime (legs : List Leg) : Int :=
  ((legs.filterMap asWalk).map WalkInfo.durationSeconds).sum

lemma dropWhile_head_false {α : Type} (p : α → Bool) :
    ∀ (l : List α) (x : α) (xs : List α), l.dropWhile p = x :: xs → p x = false := by
  intro l
  induction l with
  | nil => intro x xs h; cases h
  | cons y ys ih =>
    intro x xs h
    rw [List.dropWhile_cons] at h
    by_cases hy : p y
    · rw [if_pos hy] at h
      exact ih x xs h
    · rw [if_neg hy] at h
      cases h
      exact Bool.of_not_eq_true hy

lemma merge_ne_nil : ∀ legs : List Leg, legs ≠ [] →
    mergeConsecutiveWalkLegs legs ≠ [] := by
  intro legs hne
  match legs, hne with
  | Leg.walk w :: rest, _ =>
    rw [mergeConsecutiveWalkLegs]
    exact List.cons_ne_nil _ _
  | Leg.transit r t f s :: rest, _ =>
    rw [mergeConsecutiveWalkLegs]
    exact List.cons_ne_nil _ _

lemma merge_head_isWalk : ∀ legs : List Leg,
    (mergeConsecutiveWalkLegs legs).head?.map isWalkB = legs.head?.map isWalkB := by
  intro legs
  match legs with
  | [] => rw [mergeConsecutiveWalkLegs]
  | Leg.walk w :: rest =>
    rw [mergeConsecutiveWalkLegs]
    rfl
  | Leg.transit r t f s :: rest =>
    rw [mergeConsecutiveWalkLegs]
    rfl

lemma merge_chain (legs : List Leg) :
    noConsecutiveWalks (mergeConsecutiveWalkLegs legs) := by
  induction legs using mergeConsecutiveWalkLegs.induct with
  | case1 =>
    rw [mergeConsecutiveWalkLegs]
    exact List.chain'_nil
  | case2 w rest ih =>
    rw [mergeConsecutiveWalkLegs]
    rw [noConsecutiveWalks, List.chain'_cons']
    refine ⟨?_, ih⟩
    intro b hb
    cases hr2 : rest.dropWhile isWalkB with
    | nil =>
      rw [hr2, mergeConsecutiveWalkLegs] at hb
      cases hb
    | cons x xs =>
      have hx : isWalkB x = false := dropWhile_head_false isWalkB rest x xs hr2
      have hmap := merge_head_isWalk (x :: xs)
      rw [hr2] at hb
      have hb2 : (mergeConsecutiveWalkLegs (x :: xs)).head? = some b :=
        Option.mem_def.mp hb
      rw [hb2] at hmap
      have hbx : isWalkB b = isWalkB x := by simpa using hmap
      right
      rw [hbx]
      exact hx
  | case3 r t f s rest ih =>
    rw [mergeConsecutiveWalkLegs]
    rw [noConsecutiveWalks, List.chain'_cons']
    exact ⟨fun b _ => Or.inl rfl, ih⟩

lemma allWalks_getLast :
    ∀ (l : List Leg) (w w0 : WalkInfo),
      (∀ x ∈ l, isWalkB x = true) → l.getLast? = some (Leg.walk w) →
      (l.filterMap asWalk).getLastD w0 = w := by
  intro l
  induction l with
  | nil => intro w w0 _ hlast; cases hlast
  | cons x xs ih =>
    intro w w0 hall hlast
    cases x with
    | transit r t f s =>
      have := hall (Leg.transit r t f s) (List.mem_cons_self _ _)
      simp [isWalkB, asWalk] at this
    | walk wx =>
      have hfm : (Leg.walk wx :: xs).filterMap asWalk = wx :: xs.filterMap asWalk :=
        List.filterMap_cons_some (by rfl)
      rw [hfm, List.getLastD_cons]
      cases xs with
      | nil =>
        have hw : Leg.walk wx = Leg.walk w := by
          have : some (Leg.walk wx) = some (Leg.walk w) := hlast
          exact Option.some.inj this
        cases hw
        rfl
      | cons y ys =>
        rw [List.getLast?_cons_cons] at hlast
        exact ih w wx (fun z hz => hall z (List.mem_cons_of_mem _ hz)) hlast

lemma getLast?_cons_of_ne_nil {α : Type} (a : α) (l : List α) (h : l ≠ []) :
    (a :: l).getLast? = l.getLast? := by
  cases l with
  | nil => exact absurd rfl h
  | cons x xs => exact List.getLast?_cons_cons

lemma merge_getLast_walk :
    ∀ legs : List Leg, ∀ w : WalkInfo,
      legs.getLast? = some (Leg.walk w) →
      ∃ w2, (mergeConsecutiveWalkLegs legs).getLast? = some (Leg.walk w2) ∧
        w2.dst = w.dst := by
  intro legs
  induction legs using mergeConsecutiveWalkLegs.induct with
  | case1 => intro w hlast; cases hlast
  | case2 w0 rest ih =>
    intro w hlast
    rw [mergeConsecutiveWalkLegs]
    cases hr2 : rest.dropWhile isWalkB with
    | nil =>
      rw [mergeConsecutiveWalkLegs]
      have htake : rest.takeWhile isWalkB = rest := by
        have h := List.takeWhile_append_dropWhile isWalkB rest
        rw [hr2, List.append_nil] at h
        exact h
      have hall : ∀ x ∈ rest, isWalkB x = true := by
        intro x hx
        rw [← htake] at hx
        exact List.mem_takeWhile_imp hx
      rw [htake]
      cases rest with
      | nil =>
        have hw : w0 = w := by
          simpa using hlast
        exact ⟨w0, by simp, by rw [hw]⟩
      | cons r rs =>
        rw [List.getLast?_cons_cons] at hlast
        have hgl := allWalks_getLast (r :: rs) w w0 hall hlast
        refine ⟨_, rfl, ?_⟩
        show (((r :: rs).filterMap asWalk).getLastD w0).dst = w.dst
        rw [hgl]
    | cons x xs =>
      rw [hr2] at ih
      have hsplit := List.takeWhile_append_dropWhile isWalkB rest
      rw [hr2] at hsplit
      have hlast2 : (x :: xs).getLast? = some (Leg.walk w) := by
        have h3 : (Leg.walk w0 :: rest).getLast? =
            ((Leg.walk w0 :: rest.takeWhile isWalkB) ++ (x :: xs)).getLast? := by
          rw [List.cons_append, hsplit]
        rw [h3, List.getLast?_append] at hlast
        cases hgl : (x :: xs).getLast? with
        | none =>
          rw [List.getLast?_eq_none_iff] at hgl
          cases hgl
        | some a =>
          rw [hgl] at hlast
          simpa using hlast
      rcases ih w hlast2 with ⟨w2, h1, h2⟩
      refine ⟨w2, ?_, h2⟩
      rw [getLast?_cons_of_ne_nil _ _
        (merge_ne_nil (x :: xs) (List.cons_ne_nil _ _))]
      exact h1
  | case3 r t f s rest ih =>
    intro w hlast
    rw [mergeConsecutiveWalkLegs]
    cases rest with
    | nil =>
      simp at hlast
    | cons r2 rs2 =>
      rw [List.getLast?_cons_cons] at hlast
      rcases ih w hlast with ⟨w2, h1, h2⟩
      refine ⟨w2, ?_, h2⟩
      rw [getLast?_cons_of_ne_nil _ _
        (merge_ne_nil (r2 :: rs2) (List.cons_ne_nil _ _))]
      exact h1

lemma totalWalkDistance_cons_walk (a : WalkInfo) (l : List Leg) :
    totalWalkDistance (Leg.walk a :: l) = a.distanceM + totalWalkDistance l := by
  simp [totalWalkDistance, asWalk]

lemma totalWalkDistance_cons_transit (r t f s : String) (l : List Leg) :
    totalWalkDistance (Leg.transit r t f s :: l) = totalWalkDistance l := by
  simp [totalWalkDistance, asWalk]

lemma totalWalkTime_cons_walk (a : WalkInfo) (l : List Leg) :
    totalWalkTime (Leg.walk a :: l) = a.durationSeconds + totalWalkTime l := by
  simp [totalWalkTime, asWalk]

lemma totalWalkTime_cons_transit (r t f s : String) (l : List Leg) :
    totalWalkTime (Leg.transit r t f s :: l) = totalWalkTime l := by
  simp [totalWalkTime, asWalk]

lemma merge_total_walk (legs : List Leg) :
    totalWalkDistance (mergeConsecutiveWalkLegs legs) = totalWalkDistance legs ∧
    totalWalkTime (mergeConsecutiveWalkLegs legs) = totalWalkTime legs := by
  induction legs using mergeConsecutiveWalkLegs.induct with
  | case1 => rw [mergeConsecutiveWalkLegs]; exact ⟨rfl, rfl⟩
  | case2 w rest ih =>
    rw [mergeConsecutiveWalkLegs]
    have hsplit : rest.filterMap asWalk =
        (rest.takeWhile isWalkB).filterMap asWalk ++
          (rest.dropWhile isWalkB).filterMap asWalk := by
      conv_lhs => rw [← List.takeWhile_append_dropWhile isWalkB rest]
      rw [List.filterMap_append]
    have htd : totalWalkDistance rest =
        (((rest.takeWhile isWalkB).filterMap asWalk).map WalkInfo.distanceM).sum +
          totalWalkDistance (rest.dropWhile isWalkB) := by
      rw [totalWalkDistance, hsplit, List.map_append, List.sum_append]
      rfl
    have htt : totalWalkTime rest =
        (((rest.takeWhile isWalkB).filterMap asWalk).map WalkInfo.durationSeconds).sum +
          totalWalkTime (rest.dropWhile isWalkB) := by
      rw [totalWalkTime, hsplit, List.map_append, List.sum_append]
      rfl
    constructor
    · rw [totalWalkDistance_cons_walk, totalWalkDistance_cons_walk, ih.1, htd]
      show w.distanceM +
          (((rest.takeWhile isWalkB).filterMap asWalk).map WalkInfo.distanceM).sum +
          totalWalkDistance (rest.dropWhile isWalkB) = _
      ring
    · rw [totalWalkTime_cons_walk, totalWalkTime_cons_walk, ih.2, htt]
      show w.durationSeconds +
          (((rest.takeWhile isWalkB).filterMap asWalk).map WalkInfo.durationSeconds).sum +
          totalWalkTime (rest.dropWhile isWalkB) = _
      ring
  | case3 r t f s rest ih =>
    rw [mergeConsecutiveWalkLegs]
    rw [totalWalkDistance_cons_transit, totalWalkDistance_cons_transit,
      totalWalkTime_cons_transit, totalWalkTime_cons_transit]
    exact ih

/-- Claim C8: merging consecutive walk legs (applied by `run` to every
reconstructed itinerary after appending the final walk to the destination
coordinate) yields a leg list with no two consecutive walks; when the
pre-merge legs begin with a walk from the origin coordinate the merged
legs begin with a walk from that same origin; the merged legs always end
with a walk whose terminus is the final walk's terminus (the destination
coordinate); and total walking distance and duration are preserved, each
merged leg summing its run's distances and durations. -/
theorem merge_walk_legs_spec :
    (∀ legs : List Leg, noConsecutiveWalks (mergeConsecutiveWalkLegs legs)) ∧
    (∀ (w : WalkInfo) (rest : List Leg),
      ∃ w2, (mergeConsecutiveWalkLegs (Leg.walk w :: rest)).head? =
          some (Leg.walk w2) ∧ w2.src = w.src) ∧
    (∀ (legs : List Leg) (wd : WalkInfo),
      ∃ w2, (mergeConsecutiveWalkLegs (legs ++ [Leg.walk wd])).getLast? =
          some (Leg.walk w2) ∧ w2.dst = wd.dst) ∧
    (∀ legs : List Leg,
      totalWalkDistance (mergeConsecutiveWalkLegs legs) = totalWalkDistance legs ∧
      totalWalkTime (mergeConsecutiveWalkLegs legs) = totalWalkTime legs) := by
  refine ⟨merge_chain, ?_, ?_, merge_total_walk⟩
  · intro w rest
    rw [mergeConsecutiveWalkLegs]
    exact ⟨_, rfl, rfl⟩
  · intro legs wd
    apply merge_getLast_walk
    simp

/-- Embedding of `find_nearby_stops` (raptor_service.py lines 69-84),
parametric in the distance function `d` (the code instantiates it with
`haversine`; the guard property below holds for any distance): keep the
stops at distance ≤ maxDist together with that distance, sort by distance
ascending, return the closest 15. -/
def findNearbyStops (d : Coord → Coord → ℚ) (stops : List (String × Coord))
    (q : Coord) (maxDist : ℚ) : List (String × Coord × ℚ) :=
  let nearby := stops.filterMap (fun s =>
    if d q s.2 ≤ maxDist then some (s.1, s.2, d q s.2) else none)
  (nearby.mergeSort (fun a b => decide (a.2.2 ≤ b.2.2))).take 15

/-- Embedding of the guard at the start of `run` (raptor_service.py lines
181-189): compute the origin and destination candidate stops; when either
list is empty, return the empty result list without touching anything
else; otherwise continue with the rest of the search (abstracted as
`restOfRun`, which receives no part of the guard state). -/
def raptorRunGuard {α : Type} (restOfRun : Unit → List α)
    (d : Coord → Coord → ℚ) (stops : List (String × Coord))
    (origin dest : Coord) : List α :=
  let origin_stops := findNearbyStops d stops origin 500
  let dest_stops := findNearbyStops d stops dest 500
  if origin_stops = [] ∨ dest_stops = [] then [] else restOfRun ()

/-- Claim C10: when no stop lies within 500 m of the origin (or none
within 500 m of the destination), `run` returns the empty result list,
for every continuation of the search: the rest of the algorithm is never
entered, no error is raised (the function is total), and the model's
timetable and transfer graph inputs are not modified (the embedding is
pure, mirroring the fact that `run` assigns no instance attribute). -/
theorem run_returns_empty_no_nearby {α : Type} :
    ∀ (restOfRun : Unit → List α) (d : Coord → Coord → ℚ)
      (stops : List (String × Coord)) (origin dest : Coord),
      ((∀ s ∈ stops, ¬ d origin s.2 ≤ 500) ∨ (∀ s ∈ stops, ¬ d dest s.2 ≤ 500)) →
      raptorRunGuard restOfRun d stops origin dest = [] := by
  intro restOfRun d stops origin dest h
  have hnone : ∀ q : Coord, (∀ s ∈ stops, ¬ d q s.2 ≤ 500) →
      findNearbyStops d stops q 500 = [] := by
    intro q hq
    unfold findNearbyStops
    have hfm : stops.filterMap (fun s =>
        if d q s.2 ≤ 500 then some (s.1, s.2, d q s.2) else none) = [] := by
      rw [List.filterMap_eq_nil_iff]
      intro s hs
      rw [if_neg (hq s hs)]
    rw [hfm]
    simp
  rcases h with h | h
  · unfold raptorRunGuard
    rw [hnone origin h]
    simp
  · unfold raptorRunGuard
    rw [hnone dest h]
    simp

/-- Witness for C10: a one-stop timetable whose only stop is 1000 m from
everything; the guard returns the empty list even though the continuation
would produce a non-empty one. -/
theorem run_returns_empty_no_nearby_witness :
    raptorRunGuard (fun _ => [0])
      (fun _ _ => 1000) [("A", Coord.mk 0 0)] (Coord.mk 0 0) (Coord.mk 1 1) = [] :=
  run_returns_empty_no_nearby (fun _ => [0]) (fun _ _ => 1000)
    [("A", Coord.mk 0 0)] (Coord.mk 0 0) (Coord.mk 1 1)
    (Or.inl (fun s _ => by norm_num))

/- ------------------------------------------------------------------ -/
/- Arrival observer (arrival_logger.py)                                -/
/- ------------------------------------------------------------------ -/

/-- Value stored in `vehicle_latest_arrival` for one trip
(arrival_logger.py lines 302-311), reduced to the fields the claims
concern; `lastSeen` is the `last_seen` timestamp, in seconds on a shared
clock. -/
structure LatestArrival where
  stopId : String
  stopSequence : String
  delaySeconds : Option Int
  lastSeen : ℚ
deriving DecidableEq

/-- Association-list lookup, modelling Python dict read. -/
def lookupA {α : Type} (k : String) : List (String × α) → Option α
  | [] => none
  | (k2, v) :: rest => if k = k2 then some v else lookupA k rest

/-- Association-list write, modelling Python dict assignment. -/
def insertA {α : Type} (k : String) (v : α) :
    List (String × α) → List (String × α)
  | [] => [(k, v)]
  | (k2, v2) :: rest =>
    if k = k2 then (k, v) :: rest else (k2, v2) :: insertA k v rest

/-- Association-list delete, modelling Python `del`. -/
def eraseA {α : Type} (k : String) : List (String × α) → List (String × α)
  | [] => []
  | (k2, v) :: rest => if k = k2 then rest else (k2, v) :: eraseA k rest

/-- In-memory state of the `ArrivalLogger`: the per-trip observed-stop
sets (`vehicle_arrivals`), the per-trip latest-arrival cache
(`vehicle_latest_arrival`), and the (trip, stop) pairs of the records
appended to the on-disk CSV log, in order. -/
structure ObserverState where
  vehicleArrivals : List (String × List String)
  vehicleLatestArrival : List (String × LatestArrival)
  csvLog : List (String × String)
deriving DecidableEq

/-- The empty state at process start. -/
def initialObserverState : ObserverState :=
  { vehicleArrivals := [], vehicleLatestArrival := [], csvLog := [] }

/-- Observed stops of one trip, `∅` when the trip is unknown. -/
def arrivalsOf (st : ObserverState) (trip : String) : List String :=
  (lookupA trip st.vehicleArrivals).getD []

/-- Embedding of one (vehicle, stop) step of `poll_vehicles`
(arrival_logger.py lines 268-313): skip when the vehicle is not within
`DISTANCE_THRESHOLD_M` (30 m) of the stop; skip when the stop was already
observed for this trip; otherwise append a record to the CSV log, add the
stop to the trip's observed set, and overwrite the trip's latest-arrival
cache entry with `last_seen := now`. -/
def observeVehicleAtStop (now : ℚ) (tripId stopId stopSeq : String)
    (distance : ℚ) (delay : Option Int) (st : ObserverState) : ObserverState :=
  if 30 ≤ distance then st
  else
    let observed := arrivalsOf st tripId
    if stopId ∈ observed then st
    else
      { vehicleArrivals := insertA tripId (observed ++ [stopId]) st.vehicleArrivals
        vehicleLatestArrival :=
          insertA tripId
            { stopId := stopId, stopSequence := stopSeq,
              delaySeconds := delay, lastSeen := now }
            st.vehicleLatestArrival
        csvLog := st.csvLog ++ [(tripId, stopId)] }

/-- Embedding of the `last_seen` refresh at the end of a poll tick
(arrival_logger.py lines 316-319): every trip present in the feed that
has a cache entry gets its `last_seen` set to `now`. -/
def touchLastSeen (now : ℚ) (tripIds : List String)
    (st : ObserverState) : ObserverState :=
  { st with
    vehicleLatestArrival :=
      tripIds.foldl
        (fun acc t =>
          match lookupA t acc with
          | none => acc
          | some arr => insertA t { arr with lastSeen := now } acc)
        st.vehicleLatestArrival }

/-- Embedding of `get_latest_arrival` (arrival_logger.py lines 175-199):
look the trip up in the cache; when the entry's age exceeds
`CACHE_TTL_SECONDS` (60 s) delete the cache entry AND the trip's
observed-stop set and report the entry absent; otherwise return a copy of
the entry without `last_seen` (here its stop id, stop sequence and
delay).  Returns the read result together with the state after the read
(the lazy eviction mutates the state). -/
def getLatestArrival (now : ℚ) (tripId : String) (st : ObserverState) :
    Option (String × String × Option Int) × ObserverState :=
  match lookupA tripId st.vehicleLatestArrival with
  | none => (none, st)
  | some arr =>
    if now - arr.lastSeen > 60 then
      (none,
        { st with
          vehicleLatestArrival := eraseA tripId st.vehicleLatestArrival
          vehicleArrivals := eraseA tripId st.vehicleArrivals })
    else
      (some (arr.stopId, arr.stopSequence, arr.delaySeconds), st)

/-- State after a first observation of trip "t" at stop "s" at time 0. -/
def obsState1 : ObserverState :=
  observeVehicleAtStop 0 "t" "s" "1" 0 (some 30) initialObserverState

/-- State after a cache read for "t" at time 61 (age 61 s > TTL). -/
def obsState2 : ObserverState :=
  (getLatestArrival 61 "t" obsState1).2

/-- State after the vehicle passes stop "s" again at time 61. -/
def obsState3 : ObserverState :=
  observeVehicleAtStop 61 "t" "s" "1" 0 (some 30) obsState2

lemma obsState1_eq :
    obsState1 =
      { vehicleArrivals := [("t", ["s"])],
        vehicleLatestArrival :=
          [("t", { stopId := "s", stopSequence := "1",
                   delaySeconds := some 30, lastSeen := 0 })],
        csvLog := [("t", "s")] } := by
  unfold obsState1 observeVehicleAtStop initialObserverState
  norm_num [arrivalsOf, lookupA, insertA]

lemma obsState2_eq :
    obsState2 =
      { vehicleArrivals := [], vehicleLatestArrival := [],
        csvLog := [("t", "s")] } := by
  unfold obsState2
  rw [obsState1_eq]
  unfold getLatestArrival
  norm_num [lookupA, eraseA]

lemma obsState3_eq :
    obsState3 =
      { vehicleArrivals := [("t", ["s"])],
        vehicleLatestArrival :=
          [("t", { stopId := "s", stopSequence := "1",
                   delaySeconds := some 30, lastSeen := 61 })],
        csvLog := [("t", "s"), ("t", "s")] } := by
  unfold obsState3
  rw [obsState2_eq]
  unfold observeVehicleAtStop
  norm_num [arrivalsOf, lookupA, insertA]

/-- Claim C5 counterexample: after observing (t, s) at time 0, a single
cache READ at time 61 (age 61 s > TTL) deletes the whole per-trip
observed-stop set, so the set loses the element "s"; a subsequent pass
within threshold at time 61 then re-emits a second CSV record for the
same (trip, stop) in the same process lifetime.  Both halves of the claim
("at most one record per (trip, stop)" and "the per-trip set is
monotonically growing under every operation, including cache reads") fail
on this trace. -/
theorem arrival_set_not_monotone_counterexample :
    arrivalsOf obsState1 "t" = ["s"] ∧
    arrivalsOf obsState2 "t" = [] ∧
    obsState3.csvLog = [("t", "s"), ("t", "s")] := by
  rw [obsState1_eq, obsState2_eq, obsState3_eq]
  refine ⟨?_, ?_, rfl⟩
  · simp [arrivalsOf, lookupA]
  · simp [arrivalsOf, lookupA]

lemma lookupA_insertA_self {α : Type} (k : String) (v : α) :
    ∀ l : List (String × α), lookupA k (insertA k v l) = some v := by
  intro l
  induction l with
  | nil => simp [insertA, lookupA]
  | cons p rest ih =>
    rcases p with ⟨k2, v2⟩
    by_cases h : k = k2
    · simp [insertA, lookupA, h]
    · simp [insertA, lookupA, h, ih]

lemma lookupA_insertA_ne {α : Type} (k k2 : String) (v : α) (h : k2 ≠ k) :
    ∀ l : List (String × α), lookupA k2 (insertA k v l) = lookupA k2 l := by
  intro l
  induction l with
  | nil => simp [insertA, lookupA, h]
  | cons p rest ih =>
    rcases p with ⟨k3, v3⟩
    by_cases h2 : k = k3
    · subst h2
      simp [insertA, lookupA, h]
    · by_cases h3 : k2 = k3
      · simp [insertA, lookupA, h2, h3]
      · simp [insertA, lookupA, h2, h3, ih]

/-- Claim C5 amended: during one process lifetime, the per-trip
observed-stop sets are monotone under every POLL operation (both the
per-stop observation step and the `last_seen` refresh), and a CSV record
is appended only for a (trip, stop) pair whose stop was not yet in the
trip's observed set — exactly one record, namely (trip, stop), is
appended in that case.  Monotonicity does NOT extend to cache reads: an
expired read deletes the trip's observed set (see the counterexample),
after which re-emission can occur. -/
theorem observe_arrival_monotone_dedup :
    ∀ (now : ℚ) (tripId stopId stopSeq : String) (distance : ℚ)
      (delay : Option Int) (st : ObserverState),
      (∀ (t s : String), s ∈ arrivalsOf st t →
        s ∈ arrivalsOf (observeVehicleAtStop now tripId stopId stopSeq distance delay st) t) ∧
      ((observeVehicleAtStop now tripId stopId stopSeq distance delay st).csvLog ≠ st.csvLog →
        stopId ∉ arrivalsOf st tripId ∧
        (observeVehicleAtStop now tripId stopId stopSeq distance delay st).csvLog =
          st.csvLog ++ [(tripId, stopId)]) ∧
      (∀ tripIds : List String,
        (touchLastSeen now tripIds st).vehicleArrivals = st.vehicleArrivals) := by
  intro now tripId stopId stopSeq distance delay st
  refine ⟨?_, ?_, fun _ => rfl⟩
  · intro t s hs
    unfold observeVehicleAtStop
    by_cases hd : (30 : ℚ) ≤ distance
    · rw [if_pos hd]; exact hs
    · rw [if_neg hd]
      by_cases hmem : stopId ∈ arrivalsOf st tripId
      · simp only [if_pos hmem]; exact hs
      · simp only [if_neg hmem]
        by_cases ht : t = tripId
        · subst ht
          unfold arrivalsOf at hs ⊢
          simp only [lookupA_insertA_self]
          exact List.mem_append_left _ hs
        · unfold arrivalsOf at hs ⊢
          simp only [lookupA_insertA_ne tripId t _ ht]
          exact hs
  · intro hne
    unfold observeVehicleAtStop at hne ⊢
    by_cases hd : (30 : ℚ) ≤ distance
    · rw [if_pos hd] at hne
      exact absurd rfl hne
    · rw [if_neg hd] at hne ⊢
      by_cases hmem : stopId ∈ arrivalsOf st tripId
      · rw [if_pos hmem] at hne
        exact absurd rfl hne
      · rw [if_neg hmem]
        exact ⟨hmem, rfl⟩

/-- Witness for the amended C5: applied to the concrete first-observation
step, membership of "s" is preserved by an observation of a different
stop, and the emission equation holds for the very first step. -/
theorem observe_arrival_monotone_dedup_witness :
    ("s" ∈ arrivalsOf (observeVehicleAtStop 5 "t" "s2" "2" 0 (some 1) obsState1) "t") ∧
    ("s" ∉ arrivalsOf initialObserverState "t" ∧
      obsState1.csvLog = initialObserverState.csvLog ++ [("t", "s")]) :=
  ⟨(observe_arrival_monotone_dedup 5 "t" "s2" "2" 0 (some 1) obsState1).1
      "t" "s" (by rw [obsState1_eq]; simp [arrivalsOf, lookupA]),
    (observe_arrival_monotone_dedup 0 "t" "s" "1" 0 (some 30)
      initialObserverState).2.1
      (by show obsState1.csvLog ≠ initialObserverState.csvLog
          rw [obsState1_eq]
          simp [initialObserverState])⟩

/-- Claim C6 counterexample: an entry observed at time 0 and read at time
exactly 60.0 s has age 60, the code's check `age > 60` does not fire, and
the read RETURNS the entry without evicting anything — the claim says age
60.0 must be treated as absent and evicted. -/
theorem cache_ttl_boundary_counterexample :
    (getLatestArrival 60 "t" obsState1).1 = some ("s", "1", some 30) ∧
    (getLatestArrival 60 "t" obsState1).2 = obsState1 := by
  rw [obsState1_eq]
  unfold getLatestArrival
  norm_num [lookupA]

/-- Claim C6 amended: a cached latest-arrival entry is returned iff its
age is at most 60 seconds (so at age exactly 60.0 s it is still
returned); it is reported absent — and both the cache entry and the
trip's observed set are (lazily) evicted — iff its age strictly exceeds
60 seconds. -/
theorem cache_ttl_le_sixty :
    ∀ (st : ObserverState) (tripId : String) (now : ℚ) (arr : LatestArrival),
      lookupA tripId st.vehicleLatestArrival = some arr →
      (((getLatestArrival now tripId st).1 =
          some (arr.stopId, arr.stopSequence, arr.delaySeconds)) ↔
        now - arr.lastSeen ≤ 60) ∧
      (60 < now - arr.lastSeen →
        (getLatestArrival now tripId st).1 = none ∧
        (getLatestArrival now tripId st).2.vehicleLatestArrival =
          eraseA tripId st.vehicleLatestArrival ∧
        (getLatestArrival now tripId st).2.vehicleArrivals =
          eraseA tripId st.vehicleArrivals) := by
  intro st tripId now arr hlook
  have heq : getLatestArrival now tripId st =
      if now - arr.lastSeen > 60 then
        (none,
          { st with
            vehicleLatestArrival := eraseA tripId st.vehicleLatestArrival
            vehicleArrivals := eraseA tripId st.vehicleArrivals })
      else (some (arr.stopId, arr.stopSequence, arr.delaySeconds), st) := by
    unfold getLatestArrival
    rw [hlook]
  rw [heq]
  by_cases h : now - arr.lastSeen > 60
  · rw [if_pos h]
    refine ⟨⟨?_, ?_⟩, ?_⟩
    · intro habs
      simp at habs
    · intro hle
      exact absurd h (not_lt.mpr hle)
    · intro _
      exact ⟨rfl, rfl, rfl⟩
  · rw [if_neg h]
    refine ⟨⟨?_, ?_⟩, ?_⟩
    · intro _
      exact not_lt.mp h
    · intro _
      rfl
    · intro hgt
      exact absurd hgt h

/-- Witness for the amended C6: the entry observed at time 0 and read at
age 59.9 s is returned (59.9 ≤ 60). -/
theorem cache_ttl_le_sixty_witness :
    ((getLatestArrival (599/10) "t" obsState1).1 = some ("s", "1", some 30)) ↔
      (599/10 : ℚ) - 0 ≤ 60 :=
  (cache_ttl_le_sixty obsState1 "t" (599/10)
    { stopId := "s", stopSequence := "1", delaySeconds := some 30, lastSeen := 0 }
    (by rw [obsState1_eq]; simp [lookupA])).1

/- ------------------------------------------------------------------ -/
/- Transfer graph (raptor_service.py)                                  -/
/- ------------------------------------------------------------------ -/

/-- Degrees to radians, as Python's `math.radians`. -/
noncomputable def radiansR (x : ℝ) : ℝ := x * Real.pi / 180

/-- Python's `math.atan2 y x` over the reals. -/
noncomputable def atan2 (y x : ℝ) : ℝ :=
  if 0 < x then Real.arctan (y / x)
  else if x < 0 ∧ 0 ≤ y then Real.arctan (y / x) + Real.pi
  else if x < 0 ∧ y < 0 then Real.arctan (y / x) - Real.pi
  else if x = 0 ∧ 0 < y then Real.pi / 2
  else if x = 0 ∧ y < 0 then -(Real.pi / 2)
  else 0

/-- Embedding of `RaptorService.haversine` (raptor_service.py lines
22-31): great-circle distance on a sphere of radius 6 371 000 m, exactly
following the code's formula. -/
noncomputable def haversine (lat1 lon1 lat2 lon2 : ℝ) : ℝ :=
  let R : ℝ := 6371000
  let phi1 := radiansR lat1
  let phi2 := radiansR lat2
  let dphi := radiansR (lat2 - lat1)
  let dlambda := radiansR (lon2 - lon1)
  let a := Real.sin (dphi / 2) ^ 2 +
    Real.cos phi1 * Real.cos phi2 * Real.sin (dlambda / 2) ^ 2
  let c := 2 * atan2 (Real.sqrt a) (Real.sqrt (1 - a))
  R * c

/-- Haversine distance between two stop coordinates. -/
noncomputable def haversineQ (c1 c2 : Coord) : ℝ :=
  haversine (c1.lat : ℝ) (c1.lon : ℝ) (c2.lat : ℝ) (c2.lon : ℝ)

/-- The bounding-box pre-check of `_build_transfer_graph` (lines 51-52):
the pair is processed only when both latitude and longitude differ by at
most 0.01°. -/
def boxClose (c1 c2 : Coord) : Prop :=
  |c1.lat - c2.lat| ≤ 1/100 ∧ |c1.lon - c2.lon| ≤ 1/100

/-- Embedding of the transfer graph built by `_build_transfer_graph`
(lines 33-67): a walking edge (u, v) with duration w exists iff some pair
of positions i < j in the stop list carries ids {u, v} (in either order,
the code appends both directions), passes the bounding-box check, lies
within 500 m haversine distance, and w = ⌊distance / 1.4⌋ (`int()` on the
non-negative distance truncates like ⌊·⌋). -/
def hasTransferEdge (stops : List (String × Coord)) (u v : String) (w : ℤ) : Prop :=
  ∃ i j : Fin stops.length, (i : ℕ) < (j : ℕ) ∧
    boxClose (stops.get i).2 (stops.get j).2 ∧
    haversineQ (stops.get i).2 (stops.get j).2 ≤ 500 ∧
    w = ⌊haversineQ (stops.get i).2 (stops.get j).2 / (14/10)⌋ ∧
    ((u = (stops.get i).1 ∧ v = (stops.get j).1) ∨
      (u = (stops.get j).1 ∧ v = (stops.get i).1))

lemma ids_get_inj (stops : List (String × Coord))
    (h : (stops.map Prod.fst).Nodup) (i j : Fin stops.length)
    (heq : (stops.get i).1 = (stops.get j).1) : i = j := by
  have hi : (i : ℕ) < (stops.map Prod.fst).length := by simp
  have hj : (j : ℕ) < (stops.map Prod.fst).length := by simp
  have h1 : (stops.map Prod.fst)[(i : ℕ)] = (stops.map Prod.fst)[(j : ℕ)] := by
    rw [List.getElem_map, List.getElem_map]
    simpa [List.get_eq_getElem] using heq
  have h2 : (i : ℕ) = (j : ℕ) := (List.Nodup.getElem_inj_iff h).mp h1
  exact Fin.ext h2

/-- Claim C7 amended: the transfer graph is symmetric with equal duration
in both directions, and — for a timetable with pairwise-distinct stop ids
— the edge between the stops at positions i < j exists iff the pair BOTH
passes the 0.01° bounding-box pre-check AND lies within 500 m haversine
distance; the duration of an existing edge is ⌊distance / 1.4⌋ seconds.
The claim's version without the bounding-box condition is refuted by the
counterexample below. -/
theorem transfer_edge_symm_characterisation :
    (∀ (stops : List (String × Coord)) (u v : String) (w : ℤ),
      hasTransferEdge stops u v w ↔ hasTransferEdge stops v u w) ∧
    (∀ (stops : List (String × Coord)),
      (stops.map Prod.fst).Nodup →
      ∀ i j : Fin stops.length, (i : ℕ) < (j : ℕ) →
        ((∃ w, hasTransferEdge stops (stops.get i).1 (stops.get j).1 w) ↔
          (boxClose (stops.get i).2 (stops.get j).2 ∧
            haversineQ (stops.get i).2 (stops.get j).2 ≤ 500)) ∧
        (∀ w, hasTransferEdge stops (stops.get i).1 (stops.get j).1 w →
          w = ⌊haversineQ (stops.get i).2 (stops.get j).2 / (14/10)⌋)) := by
  constructor
  · intro stops u v w
    constructor
    · rintro ⟨i, j, hij, hbox, hdist, hw, hor⟩
      refine ⟨i, j, hij, hbox, hdist, hw, ?_⟩
      rcases hor with ⟨h1, h2⟩ | ⟨h1, h2⟩
      · exact Or.inr ⟨h2, h1⟩
      · exact Or.inl ⟨h2, h1⟩
    · rintro ⟨i, j, hij, hbox, hdist, hw, hor⟩
      refine ⟨i, j, hij, hbox, hdist, hw, ?_⟩
      rcases hor with ⟨h1, h2⟩ | ⟨h1, h2⟩
      · exact Or.inr ⟨h2, h1⟩
      · exact Or.inl ⟨h2, h1⟩
  · intro stops hnodup i j hij
    have huv : (stops.get i).1 ≠ (stops.get j).1 := by
      intro heq
      have := ids_get_inj stops hnodup i j heq
      rw [this] at hij
      exact lt_irrefl _ hij
    have hkey : ∀ w, hasTransferEdge stops (stops.get i).1 (stops.get j).1 w →
        boxClose (stops.get i).2 (stops.get j).2 ∧
        haversineQ (stops.get i).2 (stops.get j).2 ≤ 500 ∧
        w = ⌊haversineQ (stops.get i).2 (stops.get j).2 / (14/10)⌋ := by
      intro w hedge
      rcases hedge with ⟨i2, j2, hij2, hbox, hdist, hw, hor⟩
      have hii : i2 = i ∧ j2 = j := by
        rcases hor with ⟨h1, h2⟩ | ⟨h1, h2⟩
        · exact ⟨(ids_get_inj stops hnodup i2 i h1.symm),
            (ids_get_inj stops hnodup j2 j h2.symm)⟩
        · exfalso
          have e1 : j2 = i := ids_get_inj stops hnodup j2 i h1.symm
          have e2 : i2 = j := ids_get_inj stops hnodup i2 j h2.symm
          rw [e1, e2] at hij2
          omega
      rcases hii with ⟨rfl, rfl⟩
      exact ⟨hbox, hdist, hw⟩
    constructor
    · constructor
      · rintro ⟨w, hedge⟩
        rcases hkey w hedge with ⟨hbox, hdist, _⟩
        exact ⟨hbox, hdist⟩
      · rintro ⟨hbox, hdist⟩
        exact ⟨_, i, j, hij, hbox, hdist, rfl, Or.inl ⟨rfl, rfl⟩⟩
    · intro w hedge
      exact (hkey w hedge).2.2

/-- Two-stop timetable near the north pole: both stops at latitude
89.99°, longitudes 0° and 0.02°. -/
def polarStops : List (String × Coord) :=
  [("A", Coord.mk (8999/100) 0), ("B", Coord.mk (8999/100) (2/100))]

/-- Witness for the amended C7: the characterisation applied to a
concrete two-stop timetable. -/
theorem transfer_edge_symm_characterisation_witness :
    (∃ w, hasTransferEdge polarStops
        ((polarStops.get ⟨0, by decide⟩).1) ((polarStops.get ⟨1, by decide⟩).1) w) ↔
      (boxClose (polarStops.get ⟨0, by decide⟩).2 (polarStops.get ⟨1, by decide⟩).2 ∧
        haversineQ (polarStops.get ⟨0, by decide⟩).2 (polarStops.get ⟨1, by decide⟩).2 ≤ 500) :=
  ((transfer_edge_symm_characterisation.2 polarStops (by decide)
    ⟨0, by decide⟩ ⟨1, by decide⟩ (by decide)).1)

lemma arctan_le_self_of_nonneg {t : ℝ} (ht : 0 ≤ t) : Real.arctan t ≤ t := by
  rcases eq_or_lt_of_le ht with h | h
  · rw [← h, Real.arctan_zero]
  · have h1 : 0 < Real.arctan t := by
      have := Real.arctan_strictMono h
      rwa [Real.arctan_zero] at this
    have h2 : Real.arctan t < Real.pi / 2 := Real.arctan_lt_pi_div_two t
    have h3 := Real.lt_tan h1 h2
    rw [Real.tan_arctan] at h3
    exact le_of_lt h3

lemma haversine_polar_le :
    haversine (8999/100 : ℝ) 0 (8999/100) (2/100) ≤ 500 := by
  have hpi := Real.pi_pos
  have hpi4 := Real.pi_le_four
  set θ : ℝ := Real.pi / 18000 with hθ
  have hθ0 : 0 ≤ θ := by positivity
  have hθπ : θ ≤ Real.pi := by
    rw [hθ]
    nlinarith
  have hs0 : 0 ≤ Real.sin θ := Real.sin_nonneg_of_nonneg_of_le_pi hθ0 hθπ
  have hsle : Real.sin θ ≤ 1/4500 := by
    have h1 : Real.sin θ ≤ θ := Real.sin_le hθ0
    rw [hθ] at h1
    nlinarith
  have hs2 : Real.sin θ ^ 2 ≤ 1/20250000 := by nlinarith
  have ha2 : (Real.sin θ ^ 2) ^ 2 ≤ 1/2 := by nlinarith
  simp only [haversine, radiansR]
  have e0 : ((8999/100 : ℝ) - 8999/100) * Real.pi / 180 / 2 = 0 := by ring
  have e1 : (8999/100 : ℝ) * Real.pi / 180 = Real.pi / 2 - θ := by
    rw [hθ]; ring
  have e2 : ((2/100 : ℝ) - 0) * Real.pi / 180 / 2 = θ := by
    rw [hθ]; ring
  rw [e0, e1, e2, Real.sin_zero, Real.cos_pi_div_two_sub]
  rw [show (0:ℝ) ^ 2 + Real.sin θ * Real.sin θ * Real.sin θ ^ 2 =
    (Real.sin θ ^ 2) ^ 2 from by ring]
  rw [Real.sqrt_sq (sq_nonneg (Real.sin θ))]
  have hsqrt : (7/10 : ℝ) ≤ Real.sqrt (1 - (Real.sin θ ^ 2) ^ 2) :=
    Real.le_sqrt_of_sq_le (by nlinarith)
  have hx0 : (0:ℝ) < Real.sqrt (1 - (Real.sin θ ^ 2) ^ 2) :=
    lt_of_lt_of_le (by norm_num) hsqrt
  rw [atan2, if_pos hx0]
  have ht0 : 0 ≤ Real.sin θ ^ 2 / Real.sqrt (1 - (Real.sin θ ^ 2) ^ 2) :=
    div_nonneg (sq_nonneg _) (Real.sqrt_nonneg _)
  have htle : Real.sin θ ^ 2 / Real.sqrt (1 - (Real.sin θ ^ 2) ^ 2) ≤
      1/14000000 := by
    have h1 : Real.sin θ ^ 2 / Real.sqrt (1 - (Real.sin θ ^ 2) ^ 2) ≤
        (1/20250000) / (7/10) :=
      div_le_div₀ (by norm_num) hs2 (by norm_num) hsqrt
    nlinarith
  have harc := arctan_le_self_of_nonneg ht0
  nlinarith

/-- Claim C7 counterexample: for the two near-pole stops of `polarStops`
(latitude 89.99°, longitudes 0° and 0.02°) the haversine distance is well
under 500 m (under a metre, in fact), yet the transfer graph contains NO
edge between them, because the 0.01° bounding-box pre-check on longitude
eliminates the pair before the distance is ever computed.  Hence "edge
iff haversine distance ≤ 500 m" is false on the code. -/
theorem transfer_edge_haversine_counterexample :
    haversineQ (Coord.mk (8999/100) 0) (Coord.mk (8999/100) (2/100)) ≤ 500 ∧
    ∀ w : ℤ, ¬ hasTransferEdge polarStops "A" "B" w := by
  constructor
  · unfold haversineQ
    have hc1 : ((8999/100 : ℚ) : ℝ) = 8999/100 := by norm_num
    have hc2 : ((0 : ℚ) : ℝ) = 0 := by norm_num
    have hc3 : ((2/100 : ℚ) : ℝ) = 2/100 := by norm_num
    show haversine ((8999/100 : ℚ) : ℝ) ((0 : ℚ) : ℝ)
      ((8999/100 : ℚ) : ℝ) ((2/100 : ℚ) : ℝ) ≤ 500
    rw [hc1, hc2, hc3]
    exact haversine_polar_le
  · rintro w ⟨i, j, hij, hbox, -⟩
    fin_cases i <;> fin_cases j <;> simp at hij ⊢
    rcases hbox with ⟨-, hlon⟩
    norm_num [polarStops] at hlon
    rw [abs_of_nonneg (by norm_num : (0:ℚ) ≤ 1/50)] at hlon
    norm_num at hlon
